import Mathlib

/-!
Verification development for the workflow execution core of the
`workflow-project` repository (TypeScript).  The definitions below are a
shallow embedding of the source files:

  * `src/backend/src/utils/conditions.ts`   (expression evaluator)
  * `src/backend/src/engine/WorkflowEngine.ts` (step runner + engine loop)
  * `src/unnamed/part_002`                  (ForEachStepExecutor, fan-out)
  * `src/backend/src/steps/EmailStepExecutor.ts` (second half: SqliteStorage)

JavaScript numbers are modelled as `Int` (the condition / retry logic of the
source only ever manipulates integral quantities); `NaN` is a distinguished
value.  Wall-clock time is modelled as a `Nat` millisecond counter that each
executor invocation and each backoff sleep advances.  Promise rejection and
thrown exceptions are modelled with `Except String`.
-/

namespace Wf

/-! ### JavaScript values

Model of the dynamic values flowing through the engine: the primitives the
condition evaluator can meet plus objects (string-keyed records), arrays and
`Date` objects (used by run/step timestamps).  `nanV` models the IEEE `NaN`
produced by failed numeric coercions. -/

inductive JsVal where
  | undefV : JsVal
  | null : JsVal
  | nanV : JsVal
  | boolV (b : Bool) : JsVal
  | num (n : Int) : JsVal
  | str (s : String) : JsVal
  | arr (elems : List JsVal) : JsVal
  | obj (fields : List (String × JsVal)) : JsVal
  | date (ms : Nat) : JsVal
  deriving Repr

/-- JavaScript truthiness (`Boolean(v)`): `undefined`, `null`, `NaN`, `false`,
`0` and `""` are falsy, everything else (including every object and array) is
truthy. -/
def isTruthy : JsVal → Bool
  | .undefV => false
  | .null => false
  | .nanV => false
  | .boolV b => b
  | .num n => n != 0
  | .str s => !s.isEmpty
  | .arr _ => true
  | .obj _ => true
  | .date _ => true

def isUndefinedV : JsVal → Bool
  | .undefV => true
  | _ => false

def isNullish : JsVal → Bool
  | .undefV => true
  | .null => true
  | _ => false

def isStringLike : JsVal → Bool
  | .str _ => true
  | _ => false

mutual

/-- The `String(v)` / ToString.  Arrays join their elements with `","`, plain
objects print as `"[object Object]"`.  Restricted to the integral number
model. -/
def toStr : JsVal → String
  | .undefV => "undefined"
  | .null => "null"
  | .nanV => "NaN"
  | .boolV b => if b then "true" else "false"
  | .num n => toString n
  | .str s => s
  | .arr elems => String.intercalate "," (toStrList elems)
  | .obj _ => "[object Object]"
  | .date ms => "Date(" ++ toString ms ++ ")"

def toStrList : List JsVal → List String
  | [] => []
  | v :: vs => toStr v :: toStrList vs

end

/-- The `ToNumber(v)` with `none` standing for `NaN`.  String conversion is
modelled for integral numeric strings (`String.toInt?` after trimming; the
empty / blank string converts to `0` as in JS).  A one-element array converts
through its element, the empty array to `0`, anything else to `NaN`. -/
def toNum : JsVal → Option Int
  | .undefV => none
  | .null => some 0
  | .nanV => none
  | .boolV b => some (if b then 1 else 0)
  | .num n => some n
  | .str s =>
    let t := s.trim
    if t.isEmpty then some 0 else t.toInt?
  | .arr [] => some 0
  | .arr [v] => toNum v
  | .arr (_ :: _ :: _) => none
  | .obj _ => none
  | .date ms => some ms

/-- JavaScript loose equality `==` restricted to the modelled value set.
`null`/`undefined` equal only each other; two strings compare textually;
otherwise both sides are numerically coerced (`NaN` compares unequal to
everything).  Object/array operands compare by reference in JS; the
expressions fed to the evaluator only ever contain freshly parsed literals,
whose reference comparison is always `false` (the `ToPrimitive` corner for
object-vs-primitive is not modelled); `Date` objects likewise compare by
reference. -/
def looseEq (a b : JsVal) : Bool :=
  match a, b with
  | .undefV, .undefV => true
  | .undefV, .null => true
  | .null, .undefV => true
  | .null, .null => true
  | .str x, .str y => x == y
  | .obj _, _ => false
  | _, .obj _ => false
  | .arr _, _ => false
  | _, .arr _ => false
  | .date _, _ => false
  | _, .date _ => false
  | _, _ =>
    if isNullish a || isNullish b then false
    else
      match toNum a, toNum b with
      | some x, some y => x == y
      | _, _ => false

/-- JavaScript `<`: two strings compare lexicographically, otherwise both
sides are numerically coerced and any `NaN` makes the comparison `false`. -/
def jsLt (a b : JsVal) : Bool :=
  match a, b with
  | .str x, .str y => decide (x < y)
  | _, _ =>
    match toNum a, toNum b with
    | some x, some y => decide (x < y)
    | _, _ => false

/-- JavaScript `<=` (same coercions as `jsLt`; `NaN` yields `false`). -/
def jsLe (a b : JsVal) : Bool :=
  match a, b with
  | .str x, .str y => decide (x ≤ y)
  | _, _ =>
    match toNum a, toNum b with
    | some x, some y => decide (x ≤ y)
    | _, _ => false

/-- JavaScript `+`: if either operand is a string (or an object/array, whose
`ToPrimitive` is a string here), the operands are concatenated as strings;
otherwise both are numerically coerced, `NaN` being absorbing. -/
def jsAdd (a b : JsVal) : JsVal :=
  if isStringLike a || isStringLike b
      || (match a, b with
          | .obj _, _ => true | _, .obj _ => true
          | .arr _, _ => true | _, .arr _ => true
          | .date _, _ => true | _, .date _ => true
          | _, _ => false) then
    .str (toStr a ++ toStr b)
  else
    match toNum a, toNum b with
    | some x, some y => .num (x + y)
    | _, _ => .nanV

/-! ### Condition expressions (`src/backend/src/utils/conditions.ts`)

`evaluateCondition(condition, context)` first replaces every `${path}` token
by the JSON literal of the looked-up value and then evaluates the resulting
text with `new Function("return " + processed)()` — i.e. with the full
JavaScript expression grammar.  The shallow embedding represents the
condition text as an abstract syntax tree `JsExpr`; `ref` is a `${path}`
token carrying the already-split dotted path.  Besides the operators of the
closed grammar of the spec the AST includes two representative constructs that
are *outside* that grammar but perfectly legal for `new Function`:
arithmetic `add` and property access `member`. -/

inductive JsExpr where
  | lit (v : JsVal) : JsExpr
  | ref (path : List String) : JsExpr
  | member (e : JsExpr) (key : String) : JsExpr
  | add (a b : JsExpr) : JsExpr
  | notE (e : JsExpr) : JsExpr
  | andE (a b : JsExpr) : JsExpr
  | orE (a b : JsExpr) : JsExpr
  | eq (a b : JsExpr) : JsExpr
  | ne (a b : JsExpr) : JsExpr
  | lt (a b : JsExpr) : JsExpr
  | le (a b : JsExpr) : JsExpr
  | gt (a b : JsExpr) : JsExpr
  | ge (a b : JsExpr) : JsExpr
  deriving Repr

/-- Property lookup on a value: assoc-list lookup on objects, `undefined` on
everything else (primitive wrapper properties such as `"abc".length` are not
modelled; no condition in the claims touches them). -/
def getProp : JsVal → String → JsVal
  | .obj fields, k => ((fields.lookup k).getD .undefV)
  | _, _ => .undefV

/-- The `getNestedValue(obj, path)` from `conditions.ts`:
`path.split(".").reduce((current, key) => current && current[key] !== undefined
? current[key] : undefined, obj)`. -/
def getNestedValue (root : JsVal) (path : List String) : JsVal :=
  path.foldl
    (fun current key =>
      if isTruthy current && !isUndefinedV (getProp current key) then getProp current key
      else .undefV)
    root

/-- Evaluation of the (substituted) expression by the JavaScript engine the
source delegates to via `new Function("return " + …)()`.  Errors (`.error`)
model thrown exceptions — e.g. reading a property of `undefined`/`null`.
`&&` / `||` return an operand value (not a boolean), as in JS.  A raw `ref`
never reaches evaluation (substitution replaces all of them); it is mapped to
the `ReferenceError` the raw `${…}` text would raise. -/
def jsEval : JsExpr → Except String JsVal
  | .lit v => .ok v
  | .ref _ => .error "ReferenceError"
  | .member e k => do
    let v ← jsEval e
    match v with
    | .undefV =>
      .error ("TypeError: Cannot read properties of undefined (reading \x27" ++ k ++ "\x27)")
    | .null =>
      .error ("TypeError: Cannot read properties of null (reading \x27" ++ k ++ "\x27)")
    | v => .ok (getProp v k)
  | .add a b => do
    let va ← jsEval a
    let vb ← jsEval b
    .ok (jsAdd va vb)
  | .notE e => do
    let v ← jsEval e
    .ok (.boolV (!isTruthy v))
  | .andE a b => do
    let va ← jsEval a
    if isTruthy va then jsEval b else .ok va
  | .orE a b => do
    let va ← jsEval a
    if isTruthy va then .ok va else jsEval b
  | .eq a b => do
    let va ← jsEval a
    let vb ← jsEval b
    .ok (.boolV (looseEq va vb))
  | .ne a b => do
    let va ← jsEval a
    let vb ← jsEval b
    .ok (.boolV (!looseEq va vb))
  | .lt a b => do
    let va ← jsEval a
    let vb ← jsEval b
    .ok (.boolV (jsLt va vb))
  | .le a b => do
    let va ← jsEval a
    let vb ← jsEval b
    .ok (.boolV (jsLe va vb))
  | .gt a b => do
    let va ← jsEval a
    let vb ← jsEval b
    .ok (.boolV (jsLt vb va))
  | .ge a b => do
    let va ← jsEval a
    let vb ← jsEval b
    .ok (.boolV (jsLe vb va))

/-- The `${path}` replacement pass of `evaluateCondition`: every token is
replaced by `JSON.stringify(getNestedValue(context, path))`, i.e. by a
literal denoting the looked-up value (an unresolved path gives the literal
`undefined`). -/
def substRefs (ctx : JsVal) : JsExpr → JsExpr
  | .lit v => .lit v
  | .ref path => .lit (getNestedValue ctx path)
  | .member e k => .member (substRefs ctx e) k
  | .add a b => .add (substRefs ctx a) (substRefs ctx b)
  | .notE e => .notE (substRefs ctx e)
  | .andE a b => .andE (substRefs ctx a) (substRefs ctx b)
  | .orE a b => .orE (substRefs ctx a) (substRefs ctx b)
  | .eq a b => .eq (substRefs ctx a) (substRefs ctx b)
  | .ne a b => .ne (substRefs ctx a) (substRefs ctx b)
  | .lt a b => .lt (substRefs ctx a) (substRefs ctx b)
  | .le a b => .le (substRefs ctx a) (substRefs ctx b)
  | .gt a b => .gt (substRefs ctx a) (substRefs ctx b)
  | .ge a b => .ge (substRefs ctx a) (substRefs ctx b)

/-- The `evaluateCondition(condition, context)`: substitute `${path}` tokens,
evaluate the resulting expression, coerce to boolean; any thrown evaluation
error is caught, logged as a warning and turned into `false`. -/
def evaluateCondition (cond : JsExpr) (ctx : JsVal) : Bool :=
  match jsEval (substRefs ctx cond) with
  | .ok v => isTruthy v
  | .error _ => false

/-- The closed grammar of §4.1 of the spec (literals, `${path}` references,
`==`, `!=`, `<`, `>`, `<=`, `>=`, `&&`, `||`, `!`, parentheses — parentheses
are invisible in the AST).  This definition follows the words of the *spec*, to be
compared with what the source actually accepts: `add` (arithmetic) and
`member` (property access) are outside the grammar. -/
def inGrammar : JsExpr → Bool
  | .lit _ => true
  | .ref _ => true
  | .member _ _ => false
  | .add _ _ => false
  | .notE e => inGrammar e
  | .andE a b => inGrammar a && inGrammar b
  | .orE a b => inGrammar a && inGrammar b
  | .eq a b => inGrammar a && inGrammar b
  | .ne a b => inGrammar a && inGrammar b
  | .lt a b => inGrammar a && inGrammar b
  | .le a b => inGrammar a && inGrammar b
  | .gt a b => inGrammar a && inGrammar b
  | .ge a b => inGrammar a && inGrammar b

/-! ### Data model (`src/backend/src/types/index.ts`)

`StepResult.timestamp` (a `Date` taken at completion) is omitted from the
engine-side model — no claim depends on it; the wall clock itself is threaded
explicitly as a `Nat` millisecond counter.  `Run.startTime`/`endTime` are
omitted for the same reason. -/

inductive OnError where
  | stop : OnError
  | cont : OnError
  | retry : OnError
  deriving Repr, DecidableEq

structure StepResultM where
  success : Bool
  data : Option JsVal := none
  error : Option String := none
  duration : Nat := 0
  retries : Nat := 0
  deriving Repr

/-- A Step Spec (`WorkflowSchema.steps` element).  `condition` is the parsed
condition text (the `step.condition && …` guard of the engine treats the absent
and the empty condition string alike; both are `none` here).  The zod loader
defaults `retries` to `0` and `onError` to `stop`. -/
structure StepSpec where
  name : String
  type : String
  params : JsVal := .obj []
  condition : Option JsExpr := none
  retries : Nat := 0
  timeout : Option Nat := none
  onError : OnError := .stop

/-- The engine-facing part of a `StepContext`: the `variables` of the run and the
`steps` results recorded so far (insertion-ordered assoc lists, mirroring JS
object key order).  `workflow`, `currentStep`, `runId` and `logger` are also
on the source object but no modelled code path reads them. -/
structure EngCtx where
  vars : List (String × JsVal) := []
  steps : List (String × StepResultM) := []

def stepResultVal (r : StepResultM) : JsVal :=
  .obj [("success", .boolV r.success),
        ("data", r.data.getD .undefV),
        ("error", (r.error.map JsVal.str).getD .undefV),
        ("duration", .num r.duration),
        ("retries", .num r.retries)]

/-- The `StepContext` object as seen by `getNestedValue` inside
`evaluateCondition` (condition paths go through `variables.…` and
`steps.…`). -/
def ctxVal (c : EngCtx) : JsVal :=
  .obj [("variables", .obj c.vars),
        ("steps", .obj (c.steps.map (fun p => (p.1, stepResultVal p.2))))]

/-- Outcome of one `executor.execute(params, context)` invocation: the
promise either resolves with a `StepResult`-shaped value (whose `success`
may well be `false`) or rejects with an error. -/
inductive ExecOutcome where
  | ret (r : StepResultM) : ExecOutcome
  | err (msg : String) : ExecOutcome

/-- A registered `StepExecutor`.  `run k` is the behaviour of the `k`-th
`execute` invocation made by the step runner (0-based) and `runTime k` the
wall-clock milliseconds that invocation takes before settling. -/
structure StepExecutorM where
  validate? : Option (JsVal → Bool) := none
  run : JsVal → EngCtx → Nat → ExecOutcome
  runTime : JsVal → EngCtx → Nat → Nat := fun _ _ _ => 0

/-! ### Step Runner (`WorkflowEngine.executeStep` / `executeWithTimeout`) -/

/-- The `executeWithTimeout`: with no (or falsy `0`) timeout the promise of the executor is returned as is; otherwise it races a rejection that fires after
`timeoutMs`.  The earlier settler wins (the executor wins ties — both settle
in the same millisecond); wall time elapses until the winner settles. -/
def raceTimeout (timeout? : Option Nat) (t : Nat) (out : ExecOutcome) : ExecOutcome × Nat :=
  match timeout? with
  | none => (out, t)
  | some tmo =>
    if tmo = 0 then (out, t)
    else if tmo < t then
      (.err ("Step execution timed out after " ++ toString tmo ++ "ms"), tmo)
    else (out, t)

def raceResult (ex : StepExecutorM) (step : StepSpec) (ctx : EngCtx) (k : Nat) : ExecOutcome :=
  (raceTimeout step.timeout (ex.runTime step.params ctx k) (ex.run step.params ctx k)).1

def raceElapsed (ex : StepExecutorM) (step : StepSpec) (ctx : EngCtx) (k : Nat) : Nat :=
  (raceTimeout step.timeout (ex.runTime step.params ctx k) (ex.run step.params ctx k)).2

def validationPasses (ex : StepExecutorM) (step : StepSpec) : Bool :=
  match ex.validate? with
  | some v => v step.params
  | none => true

/-- The `Math.min(1000 * Math.pow(2, retryCount - 1), 30000)` — the backoff
delay computed right after `retryCount` has been incremented to the 1-based
index `n` of the attempt that just failed. -/
def backoff (n : Nat) : Nat := min (1000 * 2 ^ (n - 1)) 30000

/-- Mutable state of the `while (retryCount <= step.retries)` loop. -/
structure RunnerSt where
  retryCount : Nat := 0
  now : Nat
  execCalls : Nat := 0
  attemptsMade : Nat := 0
  sleeps : List Nat := []
  lastError : Option String := none

/-- Instrumented result of `executeStep`: the returned `StepResult` plus the
number of `execute` invocations, the number of loop iterations, the backoff
delays slept (in order) and the clock value at return. -/
structure StepRunOut where
  result : StepResultM
  execCalls : Nat
  attemptsMade : Nat
  sleeps : List Nat
  endTime : Nat

/-- The `catch` branch of the attempt loop: record the message as
`lastError`, increment `retryCount`, and — only if attempts remain — sleep
the exponential-backoff delay.  `elapsed` is the wall time the failing
attempt itself consumed (`0` for a validation failure, which throws before
`execute` is invoked). -/
def failTransition (step : StepSpec) (m : String) (elapsed : Nat) (execInc : Nat)
    (s : RunnerSt) : RunnerSt :=
  let rc := s.retryCount + 1
  if rc ≤ step.retries then
    let d := backoff rc
    { retryCount := rc, now := s.now + elapsed + d, execCalls := s.execCalls + execInc,
      attemptsMade := s.attemptsMade + 1, sleeps := s.sleeps ++ [d], lastError := some m }
  else
    { retryCount := rc, now := s.now + elapsed, execCalls := s.execCalls + execInc,
      attemptsMade := s.attemptsMade + 1, sleeps := s.sleeps, lastError := some m }

/-- The `while (retryCount <= step.retries)` loop of `executeStep`, with
`fuel = step.retries + 1 - retryCount` remaining iterations.  Each iteration
first runs `validate` (if present; a `false` result throws
`Invalid parameters …` *inside* the try, so it is retried like any other
failure), then invokes `execute` raced against the timeout.  A resolved
promise — successful or not — is returned at once with the cumulative
duration (measured from `t0`, the clock value at loop entry) and
`retries := retryCount`; a rejection goes through `failTransition`.  When the
fuel is exhausted the last failure is returned with
`retries := retryCount - 1`. -/
def attemptLoop (ex : StepExecutorM) (step : StepSpec) (ctx : EngCtx) (t0 : Nat) :
    Nat → RunnerSt → StepRunOut
  | 0, s =>
    { result := { success := false, data := none, error := s.lastError,
                  duration := s.now - t0, retries := s.retryCount - 1 },
      execCalls := s.execCalls, attemptsMade := s.attemptsMade,
      sleeps := s.sleeps, endTime := s.now }
  | fuel + 1, s =>
    if validationPasses ex step then
      match raceResult ex step ctx s.execCalls with
      | .ret r =>
        { result := { success := r.success, data := r.data, error := r.error,
                      duration := s.now + raceElapsed ex step ctx s.execCalls - t0,
                      retries := s.retryCount },
          execCalls := s.execCalls + 1, attemptsMade := s.attemptsMade + 1,
          sleeps := s.sleeps, endTime := s.now + raceElapsed ex step ctx s.execCalls }
      | .err m =>
        attemptLoop ex step ctx t0 fuel
          (failTransition step m (raceElapsed ex step ctx s.execCalls) 1 s)
    else
      attemptLoop ex step ctx t0 fuel
        (failTransition step
          ("Invalid parameters for step type \x27" ++ step.type ++ "\x27") 0 0 s)

/-- The `WorkflowEngine.executeStep`: unknown step types fail immediately with
zero attempts; otherwise the attempt loop runs with `retryCount = 0` and at
most `step.retries + 1` iterations, the clock starting at `t0`
(`startTime = Date.now()`). -/
def executeStep (registry : List (String × StepExecutorM)) (step : StepSpec)
    (ctx : EngCtx) (t0 : Nat) : StepRunOut :=
  match registry.lookup step.type with
  | none =>
    { result := { success := false, data := none,
                  error := some ("Unknown step type: " ++ step.type),
                  duration := 0, retries := 0 },
      execCalls := 0, attemptsMade := 0, sleeps := [], endTime := t0 }
  | some ex =>
    attemptLoop ex step ctx t0 (step.retries + 1)
      { retryCount := 0, now := t0, execCalls := 0, attemptsMade := 0,
        sleeps := [], lastError := none }

/-! ### Workflow Engine (`WorkflowEngine.execute`)

The storage backend and the plugin hooks are the fallible
collaborators of the engine: each operation either succeeds (returning the new storage
state) or throws.  `upsert` mirrors JS object key assignment (an existing key
keeps its position, a new key is appended). -/

def upsert {α : Type} (m : List (String × α)) (k : String) (v : α) : List (String × α) :=
  match m with
  | [] => [(k, v)]
  | (k', v') :: rest => if k' == k then (k, v) :: rest else (k', v') :: upsert rest k v

/-- The `{ ...workflow.variables, ...variables }`. -/
def mergeVars (a b : List (String × JsVal)) : List (String × JsVal) :=
  b.foldl (fun acc p => upsert acc p.1 p.2) a

inductive RunStatus where
  | running : RunStatus
  | completed : RunStatus
  | failed : RunStatus
  | paused : RunStatus
  deriving Repr, DecidableEq

/-- A `WorkflowRun` (`startTime`/`endTime` Dates omitted; no claim touches
them). -/
structure RunM where
  id : String
  workflowName : String
  status : RunStatus
  steps : List (String × StepResultM) := []
  vars : List (String × JsVal) := []
  error : Option String := none

structure WorkflowM where
  name : String
  vars : List (String × JsVal) := []
  steps : List StepSpec

/-- The argument of `storage.updateRun`: a `Partial<WorkflowRun>`.  An outer
`none` is an absent (or `undefined`) property.  For `error?`, `some none`
models an explicit `null`. -/
structure RunPatch where
  status? : Option RunStatus := none
  steps? : Option (List (String × StepResultM)) := none
  error? : Option (Option String) := none

/-- The Ledger contract used by `execute`: both writes may throw. -/
structure StorageM (σ : Type) where
  saveRun : σ → RunM → Except String σ
  updateRun : σ → String → RunPatch → Except String σ

/-- The hooks of one plugin (each absent hook is `none`; a present hook either
returns or throws).  Executor registration from plugins lands in the
registry of the engine, which the model passes separately. -/
structure HooksM where
  beforeWorkflow : Option (Except String Unit) := none
  afterWorkflow : Option (RunM → Except String Unit) := none
  beforeStep : Option (StepSpec → EngCtx → Except String Unit) := none
  afterStep : Option (StepSpec → StepResultM → Except String Unit) := none

structure EngineEnv (σ : Type) where
  registry : List (String × StepExecutorM)
  plugins : List HooksM := []
  storage : StorageM σ

/-- Run a list of hook invocations in order; the first thrown error aborts. -/
def hookSeq : List (Except String Unit) → Except String Unit
  | [] => .ok ()
  | h :: t =>
    match h with
    | .ok () => hookSeq t
    | .error m => .error m

/-- State threaded through the step loop of the engine: the (mutated-in-place)
run object, the storage state, the clock and the instrumentation trace
recording each step-runner invocation as `(step name, execute calls)`. -/
structure LoopSt (σ : Type) where
  run : RunM
  st : σ
  now : Nat
  trace : List (String × Nat) := []

/-- Result of the `try` body: `done` falls through normally, `thrown m ls`
models an exception escaping to the top-level `catch` with the state as
mutated so far. -/
inductive LoopRes (σ : Type) where
  | done (ls : LoopSt σ) : LoopRes σ
  | thrown (msg : String) (ls : LoopSt σ) : LoopRes σ

def finalLs {σ : Type} : LoopRes σ → LoopSt σ
  | .done ls => ls
  | .thrown _ ls => ls

/-- The `for (const step of workflow.steps)` loop of `execute`.  Per step:
condition guard (a present condition evaluating falsy skips the step
entirely), `beforeStep` hooks, the step runner, recording the result under
the name of the step, `afterStep` hooks, the `updateRun` checkpoint, then the
`onError` policy (`stop` breaks with the run marked failed, `continue` and
the no-op `retry` arm proceed). -/
def runSteps {σ : Type} (env : EngineEnv σ) (runId : String) :
    List StepSpec → LoopSt σ → LoopRes σ
  | [], ls => .done ls
  | step :: rest, ls =>
    let ctx : EngCtx := { vars := ls.run.vars, steps := ls.run.steps }
    if (match step.condition with
        | some c => !evaluateCondition c (ctxVal ctx)
        | none => false) then
      runSteps env runId rest ls
    else
      match hookSeq ((env.plugins.filterMap (fun p => p.beforeStep)).map
          (fun h => h step ctx)) with
      | .error m => .thrown m ls
      | .ok () =>
        let out := executeStep env.registry step ctx ls.now
        let run' := { ls.run with steps := upsert ls.run.steps step.name out.result }
        let ls' : LoopSt σ :=
          { run := run', st := ls.st, now := out.endTime,
            trace := ls.trace ++ [(step.name, out.execCalls)] }
        match hookSeq ((env.plugins.filterMap (fun p => p.afterStep)).map
            (fun h => h step out.result)) with
        | .error m => .thrown m ls'
        | .ok () =>
          match env.storage.updateRun ls'.st runId { steps? := some run'.steps } with
          | .error m => .thrown m ls'
          | .ok st' =>
            let ls'' : LoopSt σ := { ls' with st := st' }
            if out.result.success then runSteps env runId rest ls''
            else
              match step.onError with
              | .stop =>
                .done { ls'' with
                  run := { ls''.run with
                    status := .failed,
                    error := some ("Step \x27" ++ step.name ++ "\x27 failed: "
                      ++ (out.result.error.getD "undefined")) } }
              | .cont => runSteps env runId rest ls''
              | .retry => runSteps env runId rest ls''

/-- The `WorkflowEngine.execute(workflow, variables)`.  The returned triple is
(outcome, final storage state, trace): the outcome is `.ok run` when the
promise resolves with a Run and `.error m` when it rejects.  The `try` body
saves the initial running Run, fires `beforeWorkflow` hooks, runs the step
loop, promotes a still-`running` status to `completed`, persists the final
status/error and fires `afterWorkflow` hooks.  The top-level `catch` marks
the run failed with the thrown message and persists that — through an
*unguarded* `updateRun` call whose own failure rejects the whole promise. -/
def executeM {σ : Type} (env : EngineEnv σ) (wf : WorkflowM)
    (callerVars : List (String × JsVal)) (runId : String) (st0 : σ) (t0 : Nat) :
    Except String RunM × σ × List (String × Nat) :=
  let run0 : RunM :=
    { id := runId, workflowName := wf.name, status := .running,
      steps := [], vars := mergeVars wf.vars callerVars, error := none }
  let body : LoopRes σ :=
    match env.storage.saveRun st0 run0 with
    | .error m => .thrown m { run := run0, st := st0, now := t0, trace := [] }
    | .ok st1 =>
      match hookSeq (env.plugins.filterMap (fun p => p.beforeWorkflow)) with
      | .error m => .thrown m { run := run0, st := st1, now := t0, trace := [] }
      | .ok () =>
        match runSteps env runId wf.steps
            { run := run0, st := st1, now := t0, trace := [] } with
        | .thrown m ls => .thrown m ls
        | .done ls =>
          let run1 :=
            if ls.run.status = .running then { ls.run with status := .completed }
            else ls.run
          match env.storage.updateRun ls.st runId
              { status? := some run1.status, error? := run1.error.map some } with
          | .error m => .thrown m { ls with run := run1 }
          | .ok st2 =>
            match hookSeq ((env.plugins.filterMap (fun p => p.afterWorkflow)).map
                (fun h => h run1)) with
            | .error m => .thrown m { ls with run := run1, st := st2 }
            | .ok () => .done { ls with run := run1, st := st2 }
  match body with
  | .done ls => (.ok ls.run, ls.st, ls.trace)
  | .thrown m ls =>
    let runF := { ls.run with status := RunStatus.failed, error := some m }
    match env.storage.updateRun ls.st runId
        { status? := some .failed, error? := some (some m) } with
    | .ok st' => (.ok runF, st', ls.trace)
    | .error m2 => (.error m2, ls.st, ls.trace)

/-! ### JSON serialization (`JSON.stringify` / `JSON.parse`)

The storage layer and the fan-out interpolation use the JSON builtins of the
JavaScript runtime.  `jsonStringify` renders a value as JSON text;
`jsonRoundTrip` is the value denoted by `JSON.parse(JSON.stringify v)` —
the identity on JSON-representable values, while `Date`s become their ISO
string (via `toJSON`), `NaN` becomes `null`, `undefined` array elements
become `null` and `undefined` object members are dropped.  The exact ISO
8601 rendering of a `Date` is abstracted by `isoStr` (only its being a
string, distinct per time value, matters to any claim). -/

def isoStr (ms : Nat) : String := "iso:" ++ toString ms

def escapeJson (s : String) : String :=
  String.mk (s.data.foldr
    (fun c acc =>
      if c = '"' then '\\' :: '"' :: acc
      else if c = '\\' then '\\' :: '\\' :: acc
      else c :: acc) [])

mutual

/-- The `JSON.stringify`: `undefined` at the top level yields no JSON text at
all in JS; the only modelled call sites reaching it are the `${…}` replacer
of the fan-out, where the returned `undefined` is coerced to the text
`"undefined"`, which is what this arm produces. -/
def jsonStringify : JsVal → String
  | .undefV => "undefined"
  | .null => "null"
  | .nanV => "null"
  | .boolV b => if b then "true" else "false"
  | .num n => toString n
  | .str s => "\"" ++ escapeJson s ++ "\""
  | .arr l => "[" ++ String.intercalate "," (jsonStringifyList l) ++ "]"
  | .obj fs => "\x7b" ++ String.intercalate "," (jsonStringifyFields fs) ++ "\x7d"
  | .date ms => "\"" ++ isoStr ms ++ "\""

def jsonStringifyList : List JsVal → List String
  | [] => []
  | v :: vs => jsonStringify v :: jsonStringifyList vs

def jsonStringifyFields : List (String × JsVal) → List String
  | [] => []
  | (k, v) :: fs =>
    if isUndefinedV v then jsonStringifyFields fs
    else ("\"" ++ escapeJson k ++ "\":" ++ jsonStringify v) :: jsonStringifyFields fs

end

mutual

/-- The value denoted by `JSON.parse(JSON.stringify v)`. -/
def jsonRoundTrip : JsVal → JsVal
  | .undefV => .null
  | .null => .null
  | .nanV => .null
  | .boolV b => .boolV b
  | .num n => .num n
  | .str s => .str s
  | .arr l => .arr (jsonRoundTripList l)
  | .obj fs => .obj (jsonRoundTripFields fs)
  | .date ms => .str (isoStr ms)

def jsonRoundTripList : List JsVal → List JsVal
  | [] => []
  | v :: vs => jsonRoundTrip v :: jsonRoundTripList vs

def jsonRoundTripFields : List (String × JsVal) → List (String × JsVal)
  | [] => []
  | (k, v) :: fs =>
    if isUndefinedV v then jsonRoundTripFields fs
    else (k, jsonRoundTrip v) :: jsonRoundTripFields fs

end

mutual

/-- Values on which the JSON round trip is the identity: no `undefined`, no
`NaN`, no `Date` anywhere inside. -/
def jsonExact : JsVal → Bool
  | .undefV => false
  | .null => true
  | .nanV => false
  | .boolV _ => true
  | .num _ => true
  | .str _ => true
  | .arr l => jsonExactList l
  | .obj fs => jsonExactFields fs
  | .date _ => false

def jsonExactList : List JsVal → Bool
  | [] => true
  | v :: vs => jsonExact v && jsonExactList vs

def jsonExactFields : List (String × JsVal) → Bool
  | [] => true
  | (_, v) :: fs => jsonExact v && jsonExactFields fs

end

/-! ### Fan-Out Sub-Runner (`ForEachStepExecutor`, `src/unnamed/part_002`)

The iteration work shares no mutable state across iterations (each gets
fresh copies of the variables map and an empty `steps` map), so the
`Promise.allSettled` of the parallel mode over a batch settles to the same
per-iteration outcomes as running them in order; results and errors are
collected batch by batch, in index order within a batch. -/

/-- One entry of `ForEachParams.steps`.  `params` carries the raw params
object (`message`, `language`, …).  `script` is the behaviour of
`new Function("context", params.code)` applied to the iteration context —
the JS engine compiled from `params.code`, treated as an opaque external
function (it may return a value or throw, including the `SyntaxError` of an
uncompilable `code`).  `retries`/`timeout` exist on the spec but
`executeNestedStep` never reads them. -/
structure NestedStep where
  name : String
  type : String
  params : JsVal := .obj []
  condition : Option JsExpr := none
  onError : Option OnError := none
  script : EngCtx → Except String JsVal := fun _ => .error "ScriptError"

/-- The `takePath`: scan the characters after a `"${"` up to the first `}`;
the regex `\$\x7b([^\x7d]+)\x7d` requires a non-empty path. -/
def takePath (acc : List Char) : List Char → Option (List Char × List Char)
  | [] => none
  | c :: cs =>
    if c = Char.ofNat 125 then
      if acc.isEmpty then none else some (acc.reverse, cs)
    else takePath (c :: acc) cs

/-- Path lookup of `ForEachStepExecutor.evaluateExpression`: starting from
`{variables, steps}`, each key must be present (`key in value`) on an object
(arrays answer numeric indices and `length`); a missing segment returns
`none` and the original token is kept. -/
def fanLookup : JsVal → List String → Option JsVal
  | v, [] => some v
  | .obj fs, k :: ks =>
    match fs.lookup k with
    | some v' => fanLookup v' ks
    | none => none
  | .arr l, k :: ks =>
    if k = "length" then fanLookup (.num l.length) ks
    else
      match k.toNat? with
      | some i =>
        match l.get? i with
        | some v' => fanLookup v' ks
        | none => none
      | none => none
  | _, _ :: _ => none

/-- The replacement text for a resolved `${path}` value:
`typeof value === "string" ? value : JSON.stringify(value)`. -/
def fanReplacement (v : JsVal) : String :=
  match v with
  | .str s => s
  | v => jsonStringify v

/-- The `expression.replace(/\$\x7b([^\x7d]+)\x7d/g, …)` scan of
`evaluateExpression` (the `includes("${")` fast path returns the same
text). -/
def interpChars (root : JsVal) : List Char → List Char
  | [] => []
  | c :: cs =>
    if h : c = '$' ∧ cs.head? = some (Char.ofNat 123) then
      match h2 : takePath [] cs.tail with
      | some (path, rest) =>
        let segs := (String.mk path).splitOn "."
        (match fanLookup root segs with
         | some v => (fanReplacement v).data ++ interpChars root rest
         | none =>
           -- unresolved path: the token text is kept verbatim
           (c :: Char.ofNat 123 :: path) ++ (Char.ofNat 125 :: interpChars root rest))
      | none => c :: interpChars root cs
    else c :: interpChars root cs
  termination_by l => l.length
  decreasing_by
  all_goals simp only [List.length_cons]
  all_goals first
  | omega
  | (have key : ∀ (l : List Char) (acc p r), takePath acc l = some (p, r) →
        r.length < l.length := by
      intro l
      induction l with
      | nil => intro acc p r h; simp [takePath] at h
      | cons hd tl ih =>
        intro acc p r h
        simp only [takePath] at h
        split at h
        · split at h
          · exact absurd h (by simp)
          · simp only [Option.some.injEq, Prod.mk.injEq] at h
            simp [← h.2]
        · have := ih _ _ _ h
          simp only [List.length_cons]
          omega
     have hlt := key cs.tail [] _ _ h2
     have hle : cs.tail.length ≤ cs.length := by cases cs <;> simp
     omega)

def interpolate (root : JsVal) (s : String) : String :=
  String.mk (interpChars root s.data)

/-- The `p.itemVariable || "item"` — JS `||` also replaces the empty string. -/
def orDefault (o : Option String) (d : String) : String :=
  match o with
  | some s => if s.isEmpty then d else s
  | none => d

/-- The `p.maxConcurrency || 5` (a present `0` is falsy and also becomes 5). -/
def mcDefault (o : Option Nat) : Nat :=
  match o with
  | some m => if m = 0 then 5 else m
  | none => 5

/-- The `executeNestedStep`: only `log` and `script`-with-JavaScript are
implemented; every other type throws
`Unsupported nested step type: …`, and the surrounding catch converts any
throw into a failed StepResult.  The nested work is modelled as
instantaneous (its `duration` plays no role in any claim). -/
def executeNestedStep (step : NestedStep) (ctx : EngCtx) : StepResultM :=
  let body : Except String JsVal :=
    if step.type = "log" then
      let msgv := getProp step.params "message"
      let m0 := if isTruthy msgv then msgv else .str ""
      match m0 with
      | .str s => .ok (.obj [("message", .str (interpolate (ctxVal ctx) s))])
      | _ =>
        -- a non-string truthy `params.message` reaches `expression.includes`
        .error "expression.includes is not a function"
    else if step.type = "script" then
      match getProp step.params "language" with
      | .str "javascript" => step.script ctx
      | lang => .error ("Unsupported script language: " ++ toStr lang)
    else
      .error ("Unsupported nested step type: " ++ step.type
        ++ ". Use a script step for complex operations.")
  match body with
  | .ok v =>
    { success := true, data := some v, error := none, duration := 0, retries := 0 }
  | .error m =>
    { success := false, data := none, error := some m, duration := 0, retries := 0 }

structure IterRes where
  item : JsVal
  index : Nat
  steps : List (String × StepResultM)

/-- The sub-step loop of `executeIteration`.  `iterationResults` and
`iterationContext.steps` receive identical upserts in the source, so a
single accumulator (the `steps` map of the context) stands for both.  A failing
sub-step under `onError = stop` (the `??`-default) throws, aborting the
iteration; `continue` and the no-op `retry` arm proceed. -/
def iterLoop (idx : Nat) : List NestedStep → EngCtx →
    Except String (List (String × StepResultM))
  | [], ictx => .ok ictx.steps
  | step :: rest, ictx =>
    if (match step.condition with
        | some c => !evaluateCondition c (ctxVal ictx)
        | none => false) then
      iterLoop idx rest ictx
    else
      let result := executeNestedStep step ictx
      let ictx' := { ictx with steps := upsert ictx.steps step.name result }
      if result.success then iterLoop idx rest ictx'
      else
        match step.onError.getD .stop with
        | .stop =>
          .error ("Step \x27" ++ step.name ++ "\x27 failed in iteration "
            ++ toString idx ++ ": " ++ (result.error.getD "undefined"))
        | .cont => iterLoop idx rest ictx'
        | .retry => iterLoop idx rest ictx'

/-- The `executeIteration`: isolated context (copied variables with the
item/index bindings injected, fresh `steps`), then the sub-step loop. -/
def executeIteration (steps : List NestedStep) (parent : EngCtx) (item : JsVal)
    (idx : Nat) (itemVar indexVar : String) : Except String IterRes :=
  let ictx : EngCtx :=
    { vars := upsert (upsert parent.vars itemVar item) indexVar (.num idx),
      steps := [] }
  (iterLoop idx steps ictx).map
    (fun finalSteps => { item := item, index := idx, steps := finalSteps })

/-- The `createBatches(items, batchSize)`: fixed-size contiguous slices.  A zero
batch size would make the `i += batchSize` loop of the source spin forever; it is
unreachable behind the `|| 5` default and modelled as producing no
batches. -/
def createBatches {β : Type} : List β → Nat → List (List β)
  | _, 0 => []
  | [], _ + 1 => []
  | x :: xs, n + 1 => ((x :: xs).take (n + 1)) :: createBatches (xs.drop n) (n + 1)
  termination_by l => l.length
  decreasing_by
    simp only [List.length_cons, List.length_drop]
    omega

structure ForEachParams where
  items : String ⊕ List JsVal
  itemVariable : Option String := none
  indexVariable : Option String := none
  steps : List NestedStep := []
  parallel : Bool := false
  maxConcurrency : Option Nat := none

/-- JS array index assignment `a[i] = v` (holes read back as `undefined`,
modelled as `none`). -/
def jsSetIdx {α : Type} (l : List (Option α)) (i : Nat) (v : α) : List (Option α) :=
  if i < l.length then l.set i (some v)
  else (l ++ List.replicate (i - l.length) none) ++ [some v]

/-- Settling one `(index, item)` pair into the `(results, errors)`
accumulators: a fulfilled iteration is written at its original index
(`results[i] = value`, JS sparse-array semantics), a rejected one is pushed
onto `errors` with its original index. -/
def settleIter (steps : List NestedStep) (parent : EngCtx) (itemVar indexVar : String)
    (st : List (Option IterRes) × List (Nat × String)) (pair : Nat × JsVal) :
    List (Option IterRes) × List (Nat × String) :=
  match executeIteration steps parent pair.2 pair.1 itemVar indexVar with
  | .ok r => (jsSetIdx st.1 pair.1 r, st.2)
  | .error m => (st.1, st.2 ++ [(pair.1, m)])

def iterResVal (r : IterRes) : JsVal :=
  .obj [("item", r.item), ("index", .num r.index),
        ("steps", .obj (r.steps.map (fun q => (q.1, stepResultVal q.2))))]

/-- The error entry an iteration contributes when it rejects (`none` when it
fulfills): used to state which iterations appear in `errors[]`. -/
def rejectionOf (steps : List NestedStep) (parent : EngCtx) (itemVar indexVar : String)
    (q : Nat × JsVal) : Option (Nat × String) :=
  match executeIteration steps parent q.2 q.1 itemVar indexVar with
  | .ok _ => none
  | .error m => some (q.1, m)

/-- Instrumented outcome of `ForEachStepExecutor.execute`: the returned
StepResult plus the raw accumulators it was assembled from. -/
structure ForEachOut where
  result : StepResultM
  results : List (Option IterRes)
  errors : List (Nat × String)
  totalItems : Nat
  successCount : Nat
  errorCount : Nat

/-- The `ForEachStepExecutor.execute`.  A string `items` is passed through
`evaluateExpression`, which always returns a string, so `Array.isArray`
fails and the outer catch yields the `Items must be an array …` failure.  A
literal array runs the iterations — sequentially, or batch-by-batch in
parallel mode — and reports partial-success:
`success: !hasErrors || errors.length < items.length`.  (The outer
wall-clock `duration` is modelled as 0; no claim concerns it.) -/
def forEachExecute (p : ForEachParams) (ctx : EngCtx) : ForEachOut :=
  match p.items with
  | .inl _ =>
    { result := { success := false, data := none,
                  error := some "Items must be an array or expression that evaluates to an array",
                  duration := 0, retries := 0 },
      results := [], errors := [], totalItems := 0, successCount := 0, errorCount := 0 }
  | .inr items =>
    let itemVar := orDefault p.itemVariable "item"
    let indexVar := orDefault p.indexVariable "index"
    let pairs := items.enum
    let acc :=
      if p.parallel then
        (createBatches pairs (mcDefault p.maxConcurrency)).foldl
          (fun st batch => batch.foldl (settleIter p.steps ctx itemVar indexVar) st)
          ([], [])
      else
        pairs.foldl (settleIter p.steps ctx itemVar indexVar) ([], [])
    let results := acc.1
    let errors := acc.2
    let hasErrors := decide (0 < errors.length)
    { result :=
        { success := !hasErrors || decide (errors.length < items.length),
          data := some (.obj
            [("results", .arr (results.map (fun o => (o.map iterResVal).getD .undefV))),
             ("errors", .arr (errors.map (fun e =>
               .obj [("index", .num e.1), ("error", .str e.2)]))),
             ("totalItems", .num items.length),
             ("successCount", .num (results.countP Option.isSome)),
             ("errorCount", .num errors.length)]),
          error := none, duration := 0, retries := 0 },
      results := results, errors := errors, totalItems := items.length,
      successCount := results.countP Option.isSome, errorCount := errors.length }

/-! ### SqliteStorage (`src/backend/src/steps/EmailStepExecutor.ts`, second
file: `SqliteStorage`)

A `workflow_runs` row.  The `steps` and `variables` TEXT columns hold JSON
text; the model stores the value that text denotes, so writing applies
`jsonRoundTrip` (the `JSON.stringify` at write combined with the
`JSON.parse` at read — both JS builtins) and reading returns the stored
value.  `start_time`/`end_time` hold the ISO strings the source renders
with `toISOString()`. -/

structure SqlRow where
  workflowName : String
  status : String
  startTime : String
  endTime : Option String := none
  stepsJson : Option JsVal := none
  varsJson : Option JsVal := none
  error : Option String := none

/-- The `Partial<WorkflowRun>` as `updateRun` consumes it.  An outer `none` is
an absent/`undefined` property; for `errorV`, `some none` is an explicit
`null`. -/
structure SqlPatch where
  statusS : Option String := none
  endTimeS : Option String := none
  stepsV : Option JsVal := none
  varsV : Option JsVal := none
  errorV : Option (Option String) := none

/-- The SET clauses of `SqliteStorage.updateRun`: `status`, `steps` and
`variables` are guarded by JS truthiness of the supplied value (a present
empty-string status is skipped; the run maps the engine passes are objects,
always truthy); `endTime` is a `Date`, truthy whenever present; `error`
is guarded by `!== undefined` and may set NULL. -/
def applyPatch (row : SqlRow) (u : SqlPatch) : SqlRow :=
  { workflowName := row.workflowName,
    startTime := row.startTime,
    status :=
      match u.statusS with
      | some s => if s.isEmpty then row.status else s
      | none => row.status,
    endTime :=
      match u.endTimeS with
      | some t => some t
      | none => row.endTime,
    stepsJson :=
      match u.stepsV with
      | some v => if isTruthy v then some (jsonRoundTrip v) else row.stepsJson
      | none => row.stepsJson,
    varsJson :=
      match u.varsV with
      | some v => if isTruthy v then some (jsonRoundTrip v) else row.varsJson
      | none => row.varsJson,
    error :=
      match u.errorV with
      | some e => e
      | none => row.error }

/-- The `UPDATE workflow_runs SET … WHERE id = ?` — a no-op when no row has the
id. -/
def sqliteUpdateRun (rows : List (String × SqlRow)) (id : String) (u : SqlPatch) :
    List (String × SqlRow) :=
  rows.map (fun p => if p.1 = id then (p.1, applyPatch p.2 u) else p)

/-- The `INSERT INTO workflow_runs …` from `saveRun` (the JSON columns receive
the stringified maps). -/
def sqliteSaveRun (rows : List (String × SqlRow)) (id : String) (row : SqlRow) :
    List (String × SqlRow) :=
  rows ++ [(id, { row with
    stepsJson := row.stepsJson.map jsonRoundTrip,
    varsJson := row.varsJson.map jsonRoundTrip })]

/-- The Run as `mapRowToRun` rebuilds it (`startTime`/`endTime` are `new
Date(string)` in the source; the model keeps the strings). -/
structure RunRead where
  id : String
  workflowName : String
  status : String
  startTime : String
  endTime : Option String := none
  steps : JsVal
  vars : JsVal
  error : Option String := none

def mapRowToRun (id : String) (row : SqlRow) : RunRead :=
  { id := id, workflowName := row.workflowName, status := row.status,
    startTime := row.startTime, endTime := row.endTime,
    steps := row.stepsJson.getD (.obj []),
    vars := row.varsJson.getD (.obj []),
    error :=
      match row.error with
      | some e => if e.isEmpty then none else some e
      | none => none }

/-- The `SELECT * FROM workflow_runs WHERE id = ?` + `mapRowToRun`. -/
def sqliteGetRun (rows : List (String × SqlRow)) (id : String) : Option RunRead :=
  (rows.lookup id).map (mapRowToRun id)

/-! ### Concrete fixtures

Closed inputs used by the counterexample and witness theorems below. -/

/-- Always-false validator, never-invoked executor (C2). -/
def exV : StepExecutorM :=
  { validate? := some (fun _ => false),
    run := fun _ _ _ => .ret { success := true },
    runTime := fun _ _ _ => 0 }

def stepV : StepSpec := { name := "s", type := "t", retries := 1 }

/-- Always-rejecting executor (C5). -/
def exF : StepExecutorM :=
  { validate? := none,
    run := fun _ _ _ => .err "boom",
    runTime := fun _ _ _ => 0 }

def stepF : StepSpec := { name := "s", type := "t", retries := 2 }

/-- Failing-then-succeeding executor taking 10 ms per attempt (C7). -/
def exD : StepExecutorM :=
  { validate? := none,
    run := fun _ _ k => if k = 0 then .err "boom" else .ret { success := true },
    runTime := fun _ _ _ => 10 }

def stepD : StepSpec := { name := "s", type := "t", retries := 1 }

def emptyStorage : StorageM Unit :=
  { saveRun := fun s _ => .ok s, updateRun := fun s _ _ => .ok s }

def envW : EngineEnv Unit := { registry := [], storage := emptyStorage }

def stepW : StepSpec :=
  { name := "s1", type := "t", condition := some (.lit (.boolV false)) }

def lsW : LoopSt Unit :=
  { run := { id := "r1", workflowName := "wf", status := .running }, st := (), now := 0 }

/-- Storage whose `updateRun` always throws (C1). -/
def failingStorage : StorageM Unit :=
  { saveRun := fun s _ => .ok s, updateRun := fun _ _ _ => .error "db locked" }

def envB : EngineEnv Unit := { registry := [], storage := failingStorage }

def wfB : WorkflowM := { name := "wf", steps := [] }

/-- A nested fan-out sub-step of a type other than `log`/`script` (C10). -/
def httpNested : NestedStep := { name := "n1", type := "http" }

def rowR : SqlRow := { workflowName := "wf", status := "running", startTime := "iso:0" }

/-- A checkpointed steps map carrying a `Date` timestamp, as every real
checkpoint of the engine does (`timestamp: new Date()`). -/
def stepsWithDate : JsVal :=
  .obj [("s1", .obj [("success", .boolV true), ("timestamp", .date 5)])]

def uW : SqlPatch := { stepsV := some (.obj [("a", .num 1)]), varsV := some (.obj []) }

/-- All-iterations-reject fan-out fixture (C4 witness): the single nested
sub-step has an unsupported type, so each iteration throws under the default
`onError = stop`. -/
def pReject : ForEachParams :=
  { items := .inr [.num 7], steps := [{ name := "n", type := "x" }] }

/-- Empty-collection fan-out fixture (C4 counterexample). -/
def pEmpty : ForEachParams := { items := .inr [], steps := [] }

/-! ### Theorems -/

theorem attemptLoop_spec (ex : StepExecutorM) (step : StepSpec) (ctx : EngCtx) (t0 : Nat) :
    ∀ (fuel : Nat) (s : RunnerSt),
      s.retryCount + fuel = step.retries + 1 →
      s.attemptsMade = s.retryCount →
      (attemptLoop ex step ctx t0 fuel s).sleeps
          = s.sleeps ++ (List.range
              (((attemptLoop ex step ctx t0 fuel s).attemptsMade - s.attemptsMade) - 1)).map
              (fun i => backoff (s.retryCount + 1 + i))
      ∧ (attemptLoop ex step ctx t0 fuel s).endTime
          = s.now
            + ((List.range ((attemptLoop ex step ctx t0 fuel s).execCalls - s.execCalls)).map
                (fun i => raceElapsed ex step ctx (s.execCalls + i))).sum
            + ((List.range
                (((attemptLoop ex step ctx t0 fuel s).attemptsMade - s.attemptsMade) - 1)).map
                (fun i => backoff (s.retryCount + 1 + i))).sum
      ∧ (attemptLoop ex step ctx t0 fuel s).result.duration
          = (attemptLoop ex step ctx t0 fuel s).endTime - t0
      ∧ s.execCalls ≤ (attemptLoop ex step ctx t0 fuel s).execCalls
      ∧ s.attemptsMade ≤ (attemptLoop ex step ctx t0 fuel s).attemptsMade
      ∧ (1 ≤ fuel → s.attemptsMade + 1 ≤ (attemptLoop ex step ctx t0 fuel s).attemptsMade) := by
  intro fuel
  induction fuel with
  | zero =>
    intro s hinv hatt
    refine ⟨?_, ?_, ?_, ?_, ?_, ?_⟩ <;> simp [attemptLoop]
  | succ fuel ih =>
    intro s hinv hatt
    have hcompB : ((fun i => backoff (s.retryCount + 1 + i)) ∘ (fun i => i + 1))
        = (fun i => backoff (s.retryCount + 1 + 1 + i)) := by
      funext i
      simp only [Function.comp_apply]
      congr 1
      omega
    have hcompE : ((fun i => raceElapsed ex step ctx (s.execCalls + i)) ∘ (fun i => i + 1))
        = (fun i => raceElapsed ex step ctx (s.execCalls + 1 + i)) := by
      funext i
      simp only [Function.comp_apply]
      congr 1
      omega
    by_cases hv : validationPasses ex step
    · rcases hr : raceResult ex step ctx s.execCalls with r | m
      · -- resolved promise: immediate return
        refine ⟨?_, ?_, ?_, ?_, ?_, ?_⟩ <;>
          simp [attemptLoop, hv, hr, List.range_succ]
      · -- rejected promise
        by_cases hrc : s.retryCount + 1 ≤ step.retries
        · -- attempts remain: backoff sleep then recurse
          have hfuel : 1 ≤ fuel := by omega
          have harr :
              attemptLoop ex step ctx t0 (fuel + 1) s
                = attemptLoop ex step ctx t0 fuel
                    { retryCount := s.retryCount + 1,
                      now := s.now + raceElapsed ex step ctx s.execCalls
                        + backoff (s.retryCount + 1),
                      execCalls := s.execCalls + 1,
                      attemptsMade := s.attemptsMade + 1,
                      sleeps := s.sleeps ++ [backoff (s.retryCount + 1)],
                      lastError := some m } := by
            simp [attemptLoop, hv, hr, failTransition, hrc]
          obtain ⟨H1, H2, H3, H4, H5, H6⟩ := ih
            { retryCount := s.retryCount + 1,
              now := s.now + raceElapsed ex step ctx s.execCalls
                + backoff (s.retryCount + 1),
              execCalls := s.execCalls + 1,
              attemptsMade := s.attemptsMade + 1,
              sleeps := s.sleeps ++ [backoff (s.retryCount + 1)],
              lastError := some m }
            (by show s.retryCount + 1 + fuel = step.retries + 1; omega)
            (by show s.attemptsMade + 1 = s.retryCount + 1; omega)
          rw [harr]
          set out := attemptLoop ex step ctx t0 fuel
            { retryCount := s.retryCount + 1,
              now := s.now + raceElapsed ex step ctx s.execCalls
                + backoff (s.retryCount + 1),
              execCalls := s.execCalls + 1,
              attemptsMade := s.attemptsMade + 1,
              sleeps := s.sleeps ++ [backoff (s.retryCount + 1)],
              lastError := some m } with hout
          simp only at H1 H2 H3 H4 H5 H6
          have hA2 : s.attemptsMade + 2 ≤ out.attemptsMade := by
            have := H6 hfuel
            omega
          have hE1 : s.execCalls + 1 ≤ out.execCalls := H4
          have hm1 : out.attemptsMade - s.attemptsMade - 1
              = (out.attemptsMade - (s.attemptsMade + 1) - 1) + 1 := by omega
          have he1 : out.execCalls - s.execCalls
              = (out.execCalls - (s.execCalls + 1)) + 1 := by omega
          refine ⟨?_, ?_, H3, by omega, by omega, fun _ => by omega⟩
          · rw [H1, hm1, List.range_succ_eq_map]
            simp only [List.map_cons, List.map_map, hcompB, Nat.add_zero,
              List.append_assoc, List.singleton_append]
          · rw [H2, hm1, he1, List.range_succ_eq_map, List.range_succ_eq_map]
            simp only [List.map_cons, List.map_map, hcompB, hcompE, Nat.add_zero,
              List.sum_cons]
            omega
        · -- retries exhausted: no sleep, loop exits next iteration
          have hfe : fuel = 0 := by omega
          subst hfe
          refine ⟨?_, ?_, ?_, ?_, ?_, ?_⟩ <;>
            simp [attemptLoop, hv, hr, failTransition, hrc, List.range_succ]
    · -- validation fails: thrown before execute, no time consumed
      by_cases hrc : s.retryCount + 1 ≤ step.retries
      · have hfuel : 1 ≤ fuel := by omega
        have harr :
            attemptLoop ex step ctx t0 (fuel + 1) s
              = attemptLoop ex step ctx t0 fuel
                  { retryCount := s.retryCount + 1,
                    now := s.now + 0 + backoff (s.retryCount + 1),
                    execCalls := s.execCalls + 0,
                    attemptsMade := s.attemptsMade + 1,
                    sleeps := s.sleeps ++ [backoff (s.retryCount + 1)],
                    lastError := some ("Invalid parameters for step type \x27"
                      ++ step.type ++ "\x27") } := by
          simp [attemptLoop, hv, failTransition, hrc]
        obtain ⟨H1, H2, H3, H4, H5, H6⟩ := ih
          { retryCount := s.retryCount + 1,
            now := s.now + 0 + backoff (s.retryCount + 1),
            execCalls := s.execCalls + 0,
            attemptsMade := s.attemptsMade + 1,
            sleeps := s.sleeps ++ [backoff (s.retryCount + 1)],
            lastError := some ("Invalid parameters for step type \x27"
              ++ step.type ++ "\x27") }
          (by show s.retryCount + 1 + fuel = step.retries + 1; omega)
          (by show s.attemptsMade + 1 = s.retryCount + 1; omega)
        rw [harr]
        set out := attemptLoop ex step ctx t0 fuel
          { retryCount := s.retryCount + 1,
            now := s.now + 0 + backoff (s.retryCount + 1),
            execCalls := s.execCalls + 0,
            attemptsMade := s.attemptsMade + 1,
            sleeps := s.sleeps ++ [backoff (s.retryCount + 1)],
            lastError := some ("Invalid parameters for step type \x27"
              ++ step.type ++ "\x27") } with hout
        simp only at H1 H2 H3 H4 H5 H6
        have hA2 : s.attemptsMade + 2 ≤ out.attemptsMade := by
          have := H6 hfuel
          omega
        have hm1 : out.attemptsMade - s.attemptsMade - 1
            = (out.attemptsMade - (s.attemptsMade + 1) - 1) + 1 := by omega
        refine ⟨?_, ?_, H3, by omega, by omega, fun _ => by omega⟩
        · rw [H1, hm1, List.range_succ_eq_map]
          simp only [List.map_cons, List.map_map, hcompB, Nat.add_zero,
            List.append_assoc, List.singleton_append]
        · rw [H2, hm1, List.range_succ_eq_map]
          simp only [List.map_cons, List.map_map, hcompB, Nat.add_zero,
            List.sum_cons]
          omega
      · have hfe : fuel = 0 := by omega
        subst hfe
        refine ⟨?_, ?_, ?_, ?_, ?_, ?_⟩ <;>
          simp [attemptLoop, hv, failTransition, hrc, List.range_succ]

theorem attemptLoop_allFail (ex : StepExecutorM) (step : StepSpec) (ctx : EngCtx) (t0 : Nat)
    (hv : validationPasses ex step = true)
    (hf : ∀ k, ∃ m, raceResult ex step ctx k = .err m) :
    ∀ (fuel : Nat) (s : RunnerSt),
      s.retryCount + fuel = step.retries + 1 →
      (attemptLoop ex step ctx t0 fuel s).execCalls = s.execCalls + fuel
      ∧ (attemptLoop ex step ctx t0 fuel s).attemptsMade = s.attemptsMade + fuel
      ∧ (attemptLoop ex step ctx t0 fuel s).result.success = false
      ∧ (attemptLoop ex step ctx t0 fuel s).result.retries = step.retries := by
  intro fuel
  induction fuel with
  | zero =>
    intro s hinv
    refine ⟨by simp [attemptLoop], by simp [attemptLoop], by simp [attemptLoop], ?_⟩
    simp only [attemptLoop]
    omega
  | succ fuel ih =>
    intro s hinv
    obtain ⟨m, hm⟩ := hf s.execCalls
    by_cases hrc : s.retryCount + 1 ≤ step.retries
    · have harr :
          attemptLoop ex step ctx t0 (fuel + 1) s
            = attemptLoop ex step ctx t0 fuel
                { retryCount := s.retryCount + 1,
                  now := s.now + raceElapsed ex step ctx s.execCalls
                    + backoff (s.retryCount + 1),
                  execCalls := s.execCalls + 1,
                  attemptsMade := s.attemptsMade + 1,
                  sleeps := s.sleeps ++ [backoff (s.retryCount + 1)],
                  lastError := some m } := by
        simp [attemptLoop, hv, hm, failTransition, hrc]
      rw [harr]
      obtain ⟨H1, H2, H3, H4⟩ := ih
        { retryCount := s.retryCount + 1,
          now := s.now + raceElapsed ex step ctx s.execCalls
            + backoff (s.retryCount + 1),
          execCalls := s.execCalls + 1,
          attemptsMade := s.attemptsMade + 1,
          sleeps := s.sleeps ++ [backoff (s.retryCount + 1)],
          lastError := some m }
        (by show s.retryCount + 1 + fuel = step.retries + 1; omega)
      simp only at H1 H2 H3 H4
      exact ⟨by omega, by omega, H3, H4⟩
    · have harr :
          attemptLoop ex step ctx t0 (fuel + 1) s
            = attemptLoop ex step ctx t0 fuel
                { retryCount := s.retryCount + 1,
                  now := s.now + raceElapsed ex step ctx s.execCalls,
                  execCalls := s.execCalls + 1,
                  attemptsMade := s.attemptsMade + 1,
                  sleeps := s.sleeps,
                  lastError := some m } := by
        simp [attemptLoop, hv, hm, failTransition, hrc]
      rw [harr]
      obtain ⟨H1, H2, H3, H4⟩ := ih
        { retryCount := s.retryCount + 1,
          now := s.now + raceElapsed ex step ctx s.execCalls,
          execCalls := s.execCalls + 1,
          attemptsMade := s.attemptsMade + 1,
          sleeps := s.sleeps,
          lastError := some m }
        (by show s.retryCount + 1 + fuel = step.retries + 1; omega)
      simp only at H1 H2 H3 H4
      exact ⟨by omega, by omega, H3, H4⟩

theorem attemptLoop_valFail (ex : StepExecutorM) (step : StepSpec) (ctx : EngCtx) (t0 : Nat)
    (hv : validationPasses ex step = false) :
    ∀ (fuel : Nat) (s : RunnerSt),
      s.retryCount + fuel = step.retries + 1 →
      (attemptLoop ex step ctx t0 fuel s).execCalls = s.execCalls
      ∧ (attemptLoop ex step ctx t0 fuel s).attemptsMade = s.attemptsMade + fuel
      ∧ (attemptLoop ex step ctx t0 fuel s).result.success = false
      ∧ (attemptLoop ex step ctx t0 fuel s).result.retries = step.retries
      ∧ ((1 ≤ fuel ∨ s.lastError
            = some ("Invalid parameters for step type \x27" ++ step.type ++ "\x27")) →
          (attemptLoop ex step ctx t0 fuel s).result.error
            = some ("Invalid parameters for step type \x27" ++ step.type ++ "\x27")) := by
  intro fuel
  induction fuel with
  | zero =>
    intro s hinv
    refine ⟨by simp [attemptLoop], by simp [attemptLoop], by simp [attemptLoop], ?_, ?_⟩
    · simp only [attemptLoop]
      omega
    · intro hd
      rcases hd with hd | hd
      · omega
      · simpa [attemptLoop] using hd
  | succ fuel ih =>
    intro s hinv
    by_cases hrc : s.retryCount + 1 ≤ step.retries
    · have harr :
          attemptLoop ex step ctx t0 (fuel + 1) s
            = attemptLoop ex step ctx t0 fuel
                { retryCount := s.retryCount + 1,
                  now := s.now + 0 + backoff (s.retryCount + 1),
                  execCalls := s.execCalls + 0,
                  attemptsMade := s.attemptsMade + 1,
                  sleeps := s.sleeps ++ [backoff (s.retryCount + 1)],
                  lastError := some ("Invalid parameters for step type \x27"
                    ++ step.type ++ "\x27") } := by
        simp [attemptLoop, hv, failTransition, hrc]
      rw [harr]
      obtain ⟨H1, H2, H3, H4, H5⟩ := ih
        { retryCount := s.retryCount + 1,
          now := s.now + 0 + backoff (s.retryCount + 1),
          execCalls := s.execCalls + 0,
          attemptsMade := s.attemptsMade + 1,
          sleeps := s.sleeps ++ [backoff (s.retryCount + 1)],
          lastError := some ("Invalid parameters for step type \x27"
            ++ step.type ++ "\x27") }
        (by show s.retryCount + 1 + fuel = step.retries + 1; omega)
      simp only at H1 H2 H3 H4 H5
      exact ⟨by omega, by omega, H3, H4, fun _ => H5 (Or.inr trivial)⟩
    · have harr :
          attemptLoop ex step ctx t0 (fuel + 1) s
            = attemptLoop ex step ctx t0 fuel
                { retryCount := s.retryCount + 1,
                  now := s.now + 0,
                  execCalls := s.execCalls + 0,
                  attemptsMade := s.attemptsMade + 1,
                  sleeps := s.sleeps,
                  lastError := some ("Invalid parameters for step type \x27"
                    ++ step.type ++ "\x27") } := by
        simp [attemptLoop, hv, failTransition, hrc]
      rw [harr]
      obtain ⟨H1, H2, H3, H4, H5⟩ := ih
        { retryCount := s.retryCount + 1,
          now := s.now + 0,
          execCalls := s.execCalls + 0,
          attemptsMade := s.attemptsMade + 1,
          sleeps := s.sleeps,
          lastError := some ("Invalid parameters for step type \x27"
            ++ step.type ++ "\x27") }
        (by show s.retryCount + 1 + fuel = step.retries + 1; omega)
      simp only at H1 H2 H3 H4 H5
      exact ⟨by omega, by omega, H3, H4, fun _ => H5 (Or.inr trivial)⟩

theorem raceResult_err (tmo : Option Nat) (t : Nat) (m : String) :
    ∃ m', (raceTimeout tmo t (.err m)).1 = .err m' := by
  unfold raceTimeout
  rcases tmo with _ | tmo
  · exact ⟨m, rfl⟩
  · by_cases h0 : tmo = 0
    · exact ⟨m, by simp [h0]⟩
    · by_cases hlt : tmo < t
      · exact ⟨"Step execution timed out after " ++ toString tmo ++ "ms", by simp [h0, hlt]⟩
      · exact ⟨m, by simp [h0, hlt]⟩

theorem evaluateCondition_error_false (e : JsExpr) (cv : JsVal) (m : String)
    (h : jsEval (substRefs cv e) = .error m) : evaluateCondition e cv = false := by
  simp [evaluateCondition, h]

/-- Claim C3 counterexample: the arithmetic expression `1 + 2` is outside the
closed grammar, yet `evaluateCondition` executes it (the substituted text is
handed to a JS `Function`), producing `3` and hence `true` instead of the
`false` a rejection would produce. -/
theorem claim3_counterexample :
    inGrammar (.add (.lit (.num 1)) (.lit (.num 2))) = false
    ∧ evaluateCondition (.add (.lit (.num 1)) (.lit (.num 2))) (.obj []) = true
    ∧ jsEval (substRefs (.obj []) (.add (.lit (.num 1)) (.lit (.num 2))))
        = .ok (.num 3) :=
  ⟨rfl, rfl, rfl⟩

/-- Claim C3 (amended): `evaluateCondition` hands the substituted expression
to general JavaScript evaluation — constructs outside the closed grammar
(e.g. arithmetic) are executed, with their JS semantics, rather than
rejected; only an expression whose evaluation throws is caught and treated
as `false`. -/
theorem claim3_amended (cv : JsVal) (a b : Int) :
    evaluateCondition (.add (.lit (.num a)) (.lit (.num b))) cv
      = isTruthy (.num (a + b))
    ∧ ∀ (e : JsExpr) (m : String),
        jsEval (substRefs cv e) = .error m → evaluateCondition e cv = false := by
  constructor
  · rfl
  · intro e m h
    exact evaluateCondition_error_false e cv m h

/-- Witness for C3 (amended): `1 + 2` evaluates (to a truthy `3`), and a
throwing expression (`undefined.x`) is caught as `false`. -/
theorem claim3_witness :
    evaluateCondition (.add (.lit (.num 1)) (.lit (.num 2))) (.obj [])
      = isTruthy (.num ((1 : Int) + 2))
    ∧ evaluateCondition (.member (.lit .undefV) "x") (.obj []) = false :=
  ⟨(claim3_amended (.obj []) 1 2).1,
   (claim3_amended (.obj []) 1 2).2 (.member (.lit .undefV) "x")
     ("TypeError: Cannot read properties of undefined (reading \x27x\x27)") rfl⟩

/-- Claim C2 counterexample: with `retries = 1` and a validator that always
returns false, `execute` is indeed never invoked, but the validation error is
retried like any other failure: the loop runs twice (sleeping a 1000 ms
backoff in between) and the returned `retries` is 1, not 0. -/
theorem claim2_counterexample :
    (executeStep [("t", exV)] stepV {} 0).execCalls = 0
    ∧ (executeStep [("t", exV)] stepV {} 0).result.retries = 1
    ∧ (executeStep [("t", exV)] stepV {} 0).result.retries ≠ 0
    ∧ (executeStep [("t", exV)] stepV {} 0).attemptsMade = 2
    ∧ (executeStep [("t", exV)] stepV {} 0).sleeps = [1000] :=
  ⟨rfl, rfl, by decide, rfl, rfl⟩

/-- Claim C2 (amended): a false `validate` throws inside the try block and is
therefore retried under the retry policy of the step like any execution failure:
`execute` is never invoked, but with `retries = N` the loop runs `N + 1`
times and the final StepResult has `success = false`,
`retries = N` (not 0) and the `Invalid parameters …` message. -/
theorem claim2_amended (registry : List (String × StepExecutorM)) (step : StepSpec)
    (ctx : EngCtx) (t0 : Nat) (ex : StepExecutorM) (v : JsVal → Bool)
    (hlook : registry.lookup step.type = some ex)
    (hv : ex.validate? = some v) (hfalse : v step.params = false) :
    (executeStep registry step ctx t0).execCalls = 0
    ∧ (executeStep registry step ctx t0).attemptsMade = step.retries + 1
    ∧ (executeStep registry step ctx t0).result.success = false
    ∧ (executeStep registry step ctx t0).result.retries = step.retries
    ∧ (executeStep registry step ctx t0).result.error
        = some ("Invalid parameters for step type \x27" ++ step.type ++ "\x27") := by
  have hvp : validationPasses ex step = false := by
    simp [validationPasses, hv, hfalse]
  have H := attemptLoop_valFail ex step ctx t0 hvp (step.retries + 1)
    { retryCount := 0, now := t0, execCalls := 0, attemptsMade := 0,
      sleeps := [], lastError := none }
    (by show 0 + (step.retries + 1) = step.retries + 1; omega)
  simp only at H
  obtain ⟨H1, H2, H3, H4, H5⟩ := H
  simp only [executeStep, hlook]
  exact ⟨H1, by omega, H3, H4, H5 (Or.inl (by omega))⟩

/-- Witness for C2 (amended) at the concrete always-false validator. -/
theorem claim2_witness :
    (executeStep [("t", exV)] stepV {} 0).execCalls = 0
    ∧ (executeStep [("t", exV)] stepV {} 0).attemptsMade = 2
    ∧ (executeStep [("t", exV)] stepV {} 0).result.success = false
    ∧ (executeStep [("t", exV)] stepV {} 0).result.retries = 1
    ∧ (executeStep [("t", exV)] stepV {} 0).result.error
        = some ("Invalid parameters for step type \x27t\x27") := by
  have H := claim2_amended [("t", exV)] stepV {} 0 exV (fun _ => false) rfl rfl rfl
  exact H

/-- Claim C5: a step with `retries = N` whose executor `execute` rejects on
every invocation (validation passing) invokes `execute` exactly `N + 1`
times and returns `success = false` with `retries = N`. -/
theorem claim5 (registry : List (String × StepExecutorM)) (step : StepSpec)
    (ctx : EngCtx) (t0 : Nat) (ex : StepExecutorM)
    (hlook : registry.lookup step.type = some ex)
    (hval : ∀ v, ex.validate? = some v → v step.params = true)
    (hfail : ∀ k, ∃ m, ex.run step.params ctx k = .err m) :
    (executeStep registry step ctx t0).execCalls = step.retries + 1
    ∧ (executeStep registry step ctx t0).result.success = false
    ∧ (executeStep registry step ctx t0).result.retries = step.retries := by
  have hvp : validationPasses ex step = true := by
    unfold validationPasses
    rcases hve : ex.validate? with _ | v
    · rfl
    · exact hval v hve
  have hf : ∀ k, ∃ m, raceResult ex step ctx k = .err m := by
    intro k
    obtain ⟨m, hm⟩ := hfail k
    unfold raceResult
    rw [hm]
    exact raceResult_err step.timeout (ex.runTime step.params ctx k) m
  have H := attemptLoop_allFail ex step ctx t0 hvp hf (step.retries + 1)
    { retryCount := 0, now := t0, execCalls := 0, attemptsMade := 0,
      sleeps := [], lastError := none }
    (by show 0 + (step.retries + 1) = step.retries + 1; omega)
  simp only at H
  obtain ⟨H1, H2, H3, H4⟩ := H
  simp only [executeStep, hlook]
  exact ⟨by omega, H3, H4⟩

/-- Witness for C5 at a concrete always-rejecting executor with
`retries = 2`: exactly 3 invocations. -/
theorem claim5_witness :
    (executeStep [("t", exF)] stepF {} 0).execCalls = 3
    ∧ (executeStep [("t", exF)] stepF {} 0).result.success = false
    ∧ (executeStep [("t", exF)] stepF {} 0).result.retries = 2 := by
  have H := claim5 [("t", exF)] stepF {} 0 exF rfl
    (fun v hv => by cases hv) (fun k => ⟨"boom", rfl⟩)
  exact H

/-- Claim C6: the backoff delays slept by the step runner are exactly
`min(1000·2^(k-1), 30000)` between attempt `k` and `k + 1`, one entry per
non-final attempt — hence no delay after the final attempt.  Holds for every
registry, step, context and start time, with any executor behaviour. -/
theorem claim6 (registry : List (String × StepExecutorM)) (step : StepSpec)
    (ctx : EngCtx) (t0 : Nat) :
    (executeStep registry step ctx t0).sleeps
      = (List.range ((executeStep registry step ctx t0).attemptsMade - 1)).map
          (fun k => min (1000 * 2 ^ k) 30000) := by
  rcases hlook : registry.lookup step.type with _ | ex
  · simp [executeStep, hlook]
  · have H := (attemptLoop_spec ex step ctx t0 (step.retries + 1)
      { retryCount := 0, now := t0, execCalls := 0, attemptsMade := 0,
        sleeps := [], lastError := none }
      (by show 0 + (step.retries + 1) = step.retries + 1; omega) rfl).1
    simp only at H
    simp only [executeStep, hlook]
    rw [H]
    have hfun : (fun i => backoff (0 + 1 + i)) = fun k => min (1000 * 2 ^ k) 30000 := by
      funext i
      simp [backoff]
    simp [hfun]

/-- Claim C7 counterexample: with one 10 ms failing attempt, a 1000 ms
backoff and a 10 ms successful final attempt, the recorded `duration` is
1020 ms — the time since *before the first attempt* — not the 10 ms of the
final attempt path. -/
theorem claim7_counterexample :
    (executeStep [("t", exD)] stepD {} 0).result.duration = 1020
    ∧ raceElapsed exD stepD {} 1 = 10
    ∧ (executeStep [("t", exD)] stepD {} 0).result.duration
        ≠ raceElapsed exD stepD {} 1 :=
  ⟨rfl, rfl, by decide⟩

/-- Claim C7 (amended): `duration` is cumulative across the whole retry
loop — the sum of the wall time of every `execute` attempt plus every
backoff sleep, measured from before the first attempt (`startTime` is taken
once, before the loop). -/
theorem claim7_amended (registry : List (String × StepExecutorM)) (step : StepSpec)
    (ctx : EngCtx) (t0 : Nat) (ex : StepExecutorM)
    (hlook : registry.lookup step.type = some ex) :
    (executeStep registry step ctx t0).result.duration
      = ((List.range (executeStep registry step ctx t0).execCalls).map
          (fun k => raceElapsed ex step ctx k)).sum
        + (executeStep registry step ctx t0).sleeps.sum := by
  have H := attemptLoop_spec ex step ctx t0 (step.retries + 1)
    { retryCount := 0, now := t0, execCalls := 0, attemptsMade := 0,
      sleeps := [], lastError := none }
    (by show 0 + (step.retries + 1) = step.retries + 1; omega) rfl
  simp only at H
  obtain ⟨H1, H2, H3, _, _, _⟩ := H
  simp only [executeStep, hlook]
  rw [H3, H2, H1]
  have hfun : (fun i => raceElapsed ex step ctx (0 + i))
      = fun k => raceElapsed ex step ctx k := by
    funext i
    simp
  simp only [hfun, List.nil_append, Nat.sub_zero]
  omega

/-- Witness for C7 (amended) at the concrete two-attempt executor. -/
theorem claim7_witness :
    (executeStep [("t", exD)] stepD {} 0).result.duration
      = ((List.range (executeStep [("t", exD)] stepD {} 0).execCalls).map
          (fun k => raceElapsed exD stepD {} k)).sum
        + (executeStep [("t", exD)] stepD {} 0).sleeps.sum :=
  claim7_amended [("t", exD)] stepD {} 0 exD rfl

theorem upsert_keys {α : Type} :
    ∀ (m : List (String × α)) (k : String) (v : α) (k' : String),
      k' ∈ (upsert m k v).map Prod.fst → k' = k ∨ k' ∈ m.map Prod.fst := by
  intro m k v
  induction m with
  | nil =>
    intro k' h
    simp [upsert] at h
    exact Or.inl h
  | cons p rest ih =>
    obtain ⟨pk, pv⟩ := p
    intro k' h
    simp only [upsert] at h
    split at h
    · simp only [List.map_cons, List.mem_cons] at h
      rcases h with h | h
      · exact Or.inl h
      · exact Or.inr (by simp [h])
    · simp only [List.map_cons, List.mem_cons] at h
      rcases h with h | h
      · exact Or.inr (by simp [h])
      · rcases ih k' h with h' | h'
        · exact Or.inl h'
        · exact Or.inr (by simp [h'])

theorem runSteps_steps_mono {σ : Type} (env : EngineEnv σ) (runId : String) :
    ∀ (steps : List StepSpec) (ls : LoopSt σ) (k : String),
      k ∈ ((finalLs (runSteps env runId steps ls)).run.steps.map Prod.fst) →
      k ∈ ls.run.steps.map Prod.fst ∨ k ∈ steps.map StepSpec.name := by
  intro steps
  induction steps with
  | nil =>
    intro ls k h
    simp only [runSteps, finalLs] at h
    exact Or.inl h
  | cons step rest ih =>
    intro ls k h
    simp only [runSteps] at h
    split at h
    · -- condition falsy: skipped, state unchanged
      rcases ih ls k h with h' | h'
      · exact Or.inl h'
      · exact Or.inr (by simp [h'])
    · -- step executes
      split at h
      · -- beforeStep hook threw: state unchanged
        simp only [finalLs] at h
        exact Or.inl h
      · split at h
        · -- afterStep hook threw: steps already upserted
          simp only [finalLs] at h
          rcases upsert_keys ls.run.steps step.name _ k h with h' | h'
          · exact Or.inr (by simp [h'])
          · exact Or.inl h'
        · split at h
          · -- updateRun threw: steps already upserted
            simp only [finalLs] at h
            rcases upsert_keys ls.run.steps step.name _ k h with h' | h'
            · exact Or.inr (by simp [h'])
            · exact Or.inl h'
          · -- checkpoint succeeded
            split at h
            · -- step succeeded: continue with the rest
              rcases ih _ k h with h' | h'
              · rcases upsert_keys ls.run.steps step.name _ k h' with h'' | h''
                · exact Or.inr (by simp [h''])
                · exact Or.inl h''
              · exact Or.inr (by simp [h'])
            · -- step failed: onError policy
              split at h
              · -- stop: loop breaks with the failed run
                simp only [finalLs] at h
                rcases upsert_keys ls.run.steps step.name _ k h with h' | h'
                · exact Or.inr (by simp [h'])
                · exact Or.inl h'
              · -- continue
                rcases ih _ k h with h' | h'
                · rcases upsert_keys ls.run.steps step.name _ k h' with h'' | h''
                  · exact Or.inr (by simp [h''])
                  · exact Or.inl h''
                · exact Or.inr (by simp [h'])
              · -- retry (no-op arm)
                rcases ih _ k h with h' | h'
                · rcases upsert_keys ls.run.steps step.name _ k h' with h'' | h''
                  · exact Or.inr (by simp [h''])
                  · exact Or.inl h''
                · exact Or.inr (by simp [h'])

/-- Claim C8: a present condition that evaluates falsy skips the step
entirely — the loop state (run, storage, clock, executor-invocation trace)
is exactly the state of running the remaining steps, so no executor runs, no
checkpoint is written and nothing is recorded for the step; under unique
step names no entry for it ever appears in the final steps map; and a
condition whose evaluation throws is caught and treated as `false`. -/
theorem claim8 {σ : Type} (env : EngineEnv σ) (runId : String) (step : StepSpec)
    (rest : List StepSpec) (ls : LoopSt σ) (c : JsExpr)
    (hc : step.condition = some c)
    (hf : evaluateCondition c (ctxVal { vars := ls.run.vars, steps := ls.run.steps })
      = false) :
    runSteps env runId (step :: rest) ls = runSteps env runId rest ls
    ∧ (step.name ∉ ls.run.steps.map Prod.fst → step.name ∉ rest.map StepSpec.name →
        step.name ∉ (finalLs (runSteps env runId (step :: rest) ls)).run.steps.map Prod.fst)
    ∧ ∀ (e : JsExpr) (cv : JsVal) (m : String),
        jsEval (substRefs cv e) = .error m → evaluateCondition e cv = false := by
  have hskip : runSteps env runId (step :: rest) ls = runSteps env runId rest ls := by
    simp only [runSteps, hc, hf]
    simp
  refine ⟨hskip, ?_, fun e cv m h => evaluateCondition_error_false e cv m h⟩
  intro h1 h2 hmem
  rw [hskip] at hmem
  rcases runSteps_steps_mono env runId rest ls step.name hmem with h' | h'
  · exact h1 h'
  · exact h2 h'

/-- Witness for C8 at a concrete false condition. -/
theorem claim8_witness :
    runSteps envW "r1" [stepW] lsW = runSteps envW "r1" [] lsW
    ∧ "s1" ∉ (finalLs (runSteps envW "r1" [stepW] lsW)).run.steps.map Prod.fst := by
  have H := claim8 envW "r1" stepW [] lsW (.lit (.boolV false)) rfl rfl
  exact ⟨H.1, H.2.1 (by simp [lsW]) (by simp)⟩

/-- Claim C1 (code bug): when the Ledger `updateRun` throws, the top-level
catch handler itself calls `updateRun` unguarded, so `execute` rejects
instead of resolving with a failed Run — here the final checkpoint write of
a trivially completed run throws, the catch re-attempts the write, and the
promise rejects with the storage error. -/
theorem claim1_code_bug :
    executeM envB wfB [] "r1" () 0 = (.error "db locked", (), []) := rfl

/-- Claim C10: inside a fan-out iteration every nested sub-step whose type
is neither `log` nor `script` — including types with a registered engine
executor, such as `http` — fails with the
`Unsupported nested step type: …` message; the executor registry is never
consulted. -/
theorem claim10 (step : NestedStep) (ctx : EngCtx)
    (h1 : step.type ≠ "log") (h2 : step.type ≠ "script") :
    executeNestedStep step ctx
      = { success := false, data := none,
          error := some ("Unsupported nested step type: " ++ step.type
            ++ ". Use a script step for complex operations."),
          duration := 0, retries := 0 } := by
  simp [executeNestedStep, h1, h2]

/-- Witness for C10: a nested `http` sub-step fails with the fixed
message. -/
theorem claim10_witness :
    executeNestedStep httpNested {}
      = { success := false, data := none,
          error := some ("Unsupported nested step type: http. Use a script step for complex operations."),
          duration := 0, retries := 0 } := by
  have H := claim10 httpNested {} (by decide) (by decide)
  simpa using H

mutual

theorem jsonRoundTrip_exact : ∀ (v : JsVal), jsonExact v = true → jsonRoundTrip v = v
  | .null, _ => rfl
  | .boolV _, _ => rfl
  | .num _, _ => rfl
  | .str _, _ => rfl
  | .undefV, h => by simp [jsonExact] at h
  | .nanV, h => by simp [jsonExact] at h
  | .date _, h => by simp [jsonExact] at h
  | .arr l, h => by
    simp only [jsonRoundTrip]
    rw [jsonRoundTripList_exact l (by simpa [jsonExact] using h)]
  | .obj fs, h => by
    simp only [jsonRoundTrip]
    rw [jsonRoundTripFields_exact fs (by simpa [jsonExact] using h)]

theorem jsonRoundTripList_exact : ∀ (l : List JsVal),
    jsonExactList l = true → jsonRoundTripList l = l
  | [], _ => rfl
  | v :: vs, h => by
    simp only [jsonExactList, Bool.and_eq_true] at h
    simp only [jsonRoundTripList]
    rw [jsonRoundTrip_exact v h.1, jsonRoundTripList_exact vs h.2]

theorem jsonRoundTripFields_exact : ∀ (fs : List (String × JsVal)),
    jsonExactFields fs = true → jsonRoundTripFields fs = fs
  | [], _ => rfl
  | (k, v) :: fs, h => by
    simp only [jsonExactFields, Bool.and_eq_true] at h
    simp only [jsonRoundTripFields]
    have hnu : isUndefinedV v = false := by
      cases v <;> first | rfl | (exact absurd h.1 (by simp [jsonExact]))
    rw [if_neg (by simp [hnu]), jsonRoundTrip_exact v h.1,
      jsonRoundTripFields_exact fs h.2]

end

theorem sqliteUpdateRun_lookup :
    ∀ (rows : List (String × SqlRow)) (id : String) (row : SqlRow) (u : SqlPatch),
      rows.lookup id = some row →
      (sqliteUpdateRun rows id u).lookup id = some (applyPatch row u) := by
  intro rows id row u
  induction rows with
  | nil => intro h; simp [List.lookup] at h
  | cons p rest ih =>
    obtain ⟨pk, pr⟩ := p
    intro h
    simp only [sqliteUpdateRun, List.map_cons]
    by_cases hk : pk = id
    · subst hk
      simp only [List.lookup, beq_self_eq_true] at h
      have hhead : (if pk = pk then (pk, applyPatch pr u) else (pk, pr))
          = (pk, applyPatch pr u) := if_pos rfl
      rw [hhead]
      simp only [List.lookup, beq_self_eq_true]
      simp only [Option.some.injEq] at h ⊢
      rw [h]
    · have hne' : (id == pk) = false := by
        simp [Ne.symm hk]
      simp only [List.lookup, hne'] at h
      have hhead : (if pk = id then (pk, applyPatch pr u) else (pk, pr))
          = (pk, pr) := if_neg hk
      rw [hhead]
      simp only [List.lookup, hne']
      simpa [sqliteUpdateRun] using ih h

/-- Claim C9 (amended): after `updateRun` writes a truthy `steps`/`variables`
checkpoint, `getRun` on that id returns a Run whose `steps`/`variables` are
the JSON round-trip image of the checkpoint — equal to it exactly whenever
the checkpoint is JSON-clean (no `Date`, `undefined` or `NaN` inside); `Date`
values come back as their ISO strings. -/
theorem claim9_amended (rows : List (String × SqlRow)) (id : String) (row : SqlRow)
    (u : SqlPatch) (v w : JsVal)
    (hrow : rows.lookup id = some row)
    (hsv : u.stepsV = some v) (htv : isTruthy v = true)
    (hvv : u.varsV = some w) (htw : isTruthy w = true) :
    ∃ r, sqliteGetRun (sqliteUpdateRun rows id u) id = some r
      ∧ r.steps = jsonRoundTrip v
      ∧ r.vars = jsonRoundTrip w
      ∧ (jsonExact v = true → r.steps = v)
      ∧ (jsonExact w = true → r.vars = w) := by
  have hlk := sqliteUpdateRun_lookup rows id row u hrow
  refine ⟨mapRowToRun id (applyPatch row u), by simp [sqliteGetRun, hlk], ?_, ?_, ?_, ?_⟩
  · simp [mapRowToRun, applyPatch, hsv, htv]
  · simp [mapRowToRun, applyPatch, hvv, htw]
  · intro hex
    simp [mapRowToRun, applyPatch, hsv, htv, jsonRoundTrip_exact v hex]
  · intro hex
    simp [mapRowToRun, applyPatch, hvv, htw, jsonRoundTrip_exact w hex]

/-- Claim C9 counterexample: a checkpoint whose steps contain a `Date`
timestamp does not round-trip exactly — `getRun` returns the timestamp as
the ISO *string*, a different value than the `Date` that was checkpointed. -/
theorem claim9_counterexample :
    sqliteGetRun (sqliteUpdateRun [("r1", rowR)] "r1"
        { stepsV := some stepsWithDate }) "r1"
      = some { id := "r1", workflowName := "wf", status := "running",
               startTime := "iso:0", endTime := none,
               steps := .obj [("s1", .obj [("success", .boolV true),
                 ("timestamp", .str "iso:5")])],
               vars := .obj [], error := none }
    ∧ JsVal.obj [("s1", .obj [("success", .boolV true), ("timestamp", .str "iso:5")])]
        ≠ stepsWithDate := by
  refine ⟨rfl, ?_⟩
  intro h
  simp [stepsWithDate] at h

/-- Witness for C9 (amended) at a concrete JSON-clean checkpoint. -/
theorem claim9_witness :
    ∃ r, sqliteGetRun (sqliteUpdateRun [("r1", rowR)] "r1" uW) "r1" = some r
      ∧ r.steps = jsonRoundTrip (.obj [("a", .num 1)])
      ∧ r.vars = jsonRoundTrip (.obj [])
      ∧ (jsonExact (.obj [("a", .num 1)]) = true → r.steps = .obj [("a", .num 1)])
      ∧ (jsonExact (.obj []) = true → r.vars = .obj []) :=
  claim9_amended [("r1", rowR)] "r1" rowR uW (.obj [("a", .num 1)]) (.obj [])
    rfl rfl rfl rfl rfl

theorem settleFold_errors (steps : List NestedStep) (parent : EngCtx)
    (itemVar indexVar : String) :
    ∀ (pairs : List (Nat × JsVal)) (rs : List (Option IterRes)) (es : List (Nat × String)),
      (pairs.foldl (settleIter steps parent itemVar indexVar) (rs, es)).2
        = es ++ pairs.filterMap (rejectionOf steps parent itemVar indexVar) := by
  intro pairs
  induction pairs with
  | nil => intro rs es; simp
  | cons q rest ih =>
    intro rs es
    simp only [List.foldl_cons, List.filterMap_cons]
    rcases hq : executeIteration steps parent q.2 q.1 itemVar indexVar with m | r
    · -- rejected
      simp only [settleIter, hq, rejectionOf]
      rw [ih]
      simp
    · -- fulfilled
      simp only [settleIter, hq, rejectionOf]
      rw [ih]

theorem createBatches_join_aux {β : Type} :
    ∀ (N : Nat) (l : List β) (n : Nat), l.length ≤ N →
      (createBatches l (n + 1)).flatten = l := by
  intro N
  induction N with
  | zero =>
    intro l n h
    have : l = [] := by
      cases l
      · rfl
      · simp at h
    subst this
    simp [createBatches]
  | succ N ih =>
    intro l n h
    cases l with
    | nil => simp [createBatches]
    | cons x xs =>
      rw [createBatches]
      simp only [List.flatten_cons]
      rw [ih (xs.drop n) n (by simp only [List.length_drop]; simp at h; omega)]
      have : xs.drop n = (x :: xs).drop (n + 1) := rfl
      rw [this, List.take_append_drop]

theorem createBatches_join {β : Type} (l : List β) (n : Nat) (h : 1 ≤ n) :
    (createBatches l n).flatten = l := by
  obtain ⟨m, rfl⟩ : ∃ m, n = m + 1 := ⟨n - 1, by omega⟩
  exact createBatches_join_aux l.length l m le_rfl

theorem mcDefault_pos (o : Option Nat) : 1 ≤ mcDefault o := by
  rcases o with _ | m
  · simp [mcDefault]
  · by_cases h : m = 0 <;> simp [mcDefault, h] <;> omega

theorem batchFold_errors (steps : List NestedStep) (parent : EngCtx)
    (itemVar indexVar : String) :
    ∀ (batches : List (List (Nat × JsVal))) (rs : List (Option IterRes))
      (es : List (Nat × String)),
      (batches.foldl
          (fun st b => b.foldl (settleIter steps parent itemVar indexVar) st)
          (rs, es)).2
        = es ++ (batches.flatten).filterMap (rejectionOf steps parent itemVar indexVar) := by
  intro batches
  induction batches with
  | nil => intro rs es; simp
  | cons b bs ih =>
    intro rs es
    simp only [List.foldl_cons, List.flatten_cons, List.filterMap_append]
    rcases hfold : b.foldl (settleIter steps parent itemVar indexVar) (rs, es)
      with ⟨rs1, es1⟩
    have hes1 : es1 = es ++ b.filterMap (rejectionOf steps parent itemVar indexVar) := by
      have := settleFold_errors steps parent itemVar indexVar b rs es
      rw [hfold] at this
      exact this
    rw [ih rs1 es1, hes1]
    simp

/-- Claim C4 counterexample: over the empty items collection the executor
reports `success = true` (`!hasErrors` short-circuits), while the claimed
formula `errorCount < totalItems` is `0 < 0 = false`. -/
theorem claim4_counterexample :
    (forEachExecute pEmpty {}).result.success = true
    ∧ (forEachExecute pEmpty {}).errorCount = 0
    ∧ (forEachExecute pEmpty {}).totalItems = 0
    ∧ ¬((forEachExecute pEmpty {}).errorCount < (forEachExecute pEmpty {}).totalItems) :=
  ⟨rfl, rfl, rfl, by decide⟩

/-- Claim C4 (amended): for a literal items array (either mode, any
concurrency bound) the fan-out result satisfies
`success = (errorCount = 0 ∨ errorCount < totalItems)` — the spec formula
`errorCount < totalItems` for non-empty collections, while the empty
collection (vacuously error-free) succeeds; `totalItems` is the array
length, `errorCount` the length of `errors[]`, and `errors[]` holds exactly
the rejected iterations, each with its original index. -/
theorem claim4_amended (p : ForEachParams) (ctx : EngCtx) (items : List JsVal)
    (hitems : p.items = .inr items) :
    (forEachExecute p ctx).result.success
      = (((forEachExecute p ctx).errorCount == 0)
          || decide ((forEachExecute p ctx).errorCount < (forEachExecute p ctx).totalItems))
    ∧ (forEachExecute p ctx).totalItems = items.length
    ∧ (forEachExecute p ctx).errorCount = (forEachExecute p ctx).errors.length
    ∧ (forEachExecute p ctx).errors
        = items.enum.filterMap (rejectionOf p.steps ctx
            (orDefault p.itemVariable "item") (orDefault p.indexVariable "index")) := by
  have hnotpos : ∀ n : Nat, (!decide (0 < n)) = (n == 0) := by
    intro n
    cases n <;> simp
  rcases hp : p.parallel
  · -- sequential mode
    have herr := settleFold_errors p.steps ctx (orDefault p.itemVariable "item")
      (orDefault p.indexVariable "index") items.enum [] []
    simp only [List.nil_append] at herr
    refine ⟨?_, ?_, ?_, ?_⟩ <;>
      simp [forEachExecute, hitems, hp, herr, hnotpos]
  · -- parallel mode
    have herr := batchFold_errors p.steps ctx (orDefault p.itemVariable "item")
      (orDefault p.indexVariable "index")
      (createBatches items.enum (mcDefault p.maxConcurrency)) [] []
    rw [createBatches_join items.enum (mcDefault p.maxConcurrency)
      (mcDefault_pos p.maxConcurrency)] at herr
    simp only [List.nil_append] at herr
    refine ⟨?_, ?_, ?_, ?_⟩ <;>
      simp [forEachExecute, hitems, hp, herr, hnotpos]

/-- Witness for C4 (amended) at a one-item collection whose single iteration
rejects. -/
theorem claim4_witness :
    (forEachExecute pReject {}).result.success
      = (((forEachExecute pReject {}).errorCount == 0)
          || decide ((forEachExecute pReject {}).errorCount
              < (forEachExecute pReject {}).totalItems))
    ∧ (forEachExecute pReject {}).totalItems = [JsVal.num 7].length
    ∧ (forEachExecute pReject {}).errorCount = (forEachExecute pReject {}).errors.length
    ∧ (forEachExecute pReject {}).errors
        = [JsVal.num 7].enum.filterMap (rejectionOf pReject.steps {}
            (orDefault pReject.itemVariable "item")
            (orDefault pReject.indexVariable "index")) :=
  claim4_amended pReject {} [JsVal.num 7] rfl

end Wf
